import Mathlib

/-!
Verification development for the transcript-processing pipeline.

The repository's core logic lives in two Python scripts:
  * process_transcripts.py : `split_into_sessions`, `extract_dialogue_segments`
  * enhance_translations.py : `TRANSLATION_PATTERNS`, `translate_korean_text`

This file gives a shallow embedding of those functions over `List Char`
(Python strings, `len` = number of code points) and `Int` (Python ints),
and proves the stated properties about them.  Python regular-expression
behaviour is embedded directly for the concrete patterns the scripts use:
the split pattern `[.!?]\s+` and the translation patterns, which consist
only of literal characters, lazy `.*?`, and one greedy captured `[가-힣]+`.
Recursions use explicit fuel bounded below by the scanned string length so
that every definition is structurally recursive and kernel-computable.
-/

/-- The whitespace set used by Python's `str.strip()` and by `\s` in
`re` on unicode strings (ASCII whitespace plus unicode space separators). -/
def pyIsSpace (c : Char) : Bool :=
  c == ' ' || c == '\t' || c == '\n' || c == '\r' || c == '\x0b' || c == '\x0c' ||
  c == '\x1c' || c == '\x1d' || c == '\x1e' || c == '\x1f' || c == '\x85' || c == '\xa0' ||
  c == '\u1680' || (decide (0x2000 ≤ c.toNat) && decide (c.toNat ≤ 0x200a)) ||
  c == '\u2028' || c == '\u2029' || c == '\u202f' || c == '\u205f' || c == '\u3000'

/-- Python `s.strip()`: remove leading and trailing whitespace. -/
def pyStrip (l : List Char) : List Char :=
  ((l.dropWhile pyIsSpace).reverse.dropWhile pyIsSpace).reverse

/-- Python substring test `needle in hay`. -/
def pySubstr (needle : List Char) : List Char → Bool
  | [] => needle.isEmpty
  | c :: t => List.isPrefixOf needle (c :: t) || pySubstr needle t

/-- Normalisation of a Python slice index against a sequence length:
negative indices count from the end, indices are clamped to `[0, len]`. -/
def pyIdx (len : Nat) (i : Int) : Nat :=
  if i < 0 then ((len : Int) + i).toNat else min i.toNat len

/-- Python slice `l[a:b]`. -/
def pySlice {α : Type} (l : List α) (a b : Int) : List α :=
  (l.drop (pyIdx l.length a)).take (pyIdx l.length b - pyIdx l.length a)

/-- Python `range(n)` (empty for `n ≤ 0`). -/
def pyRangeInt (n : Int) : List Int :=
  (List.range n.toNat).map Int.ofNat

/-- process_transcripts.py, `split_into_sessions` (lines 9-18).
`total // num_sessions` raises `ZeroDivisionError` when `num_sessions = 0`,
modelled as `none`; otherwise Python floor division is `Int.fdiv` and the
loop body slices `entries[start:end]`. -/
def split_into_sessions {α : Type} (entries : List α) (num_sessions : Int) :
    Option (List (List α)) :=
  if num_sessions = 0 then none
  else
    some ((pyRangeInt num_sessions).map (fun i =>
      let per_session : Int := Int.fdiv ((entries.length : Nat) : Int) num_sessions
      let start : Int := i * per_session
      pySlice entries start
        (if i < num_sessions - 1 then start + per_session else ((entries.length : Nat) : Int))))

/-- `Nat`-level description of `split_into_sessions` for `1 ≤ n`. -/
def splitNat {α : Type} (l : List α) (n : Nat) : List (List α) :=
  (List.range n).map (fun i =>
    if i + 1 < n then (l.drop (i * (l.length / n))).take (l.length / n)
    else l.drop (i * (l.length / n)))

/-- The characters of the sentence-boundary class `[.!?]`. -/
def sentencePunct (c : Char) : Bool :=
  c == '.' || c == '!' || c == '?'

/-- Scanner for `re.split(r'[.!?]\s+', s)`: at each position, a boundary is a
class character immediately followed by whitespace; the separator greedily
consumes the maximal whitespace run and is removed.  `fuel` strictly exceeds
the length of `rest` at every call, so the first equation is unreachable. -/
def splitSentAux : Nat → List Char → List Char → List (List Char)
  | 0, acc, rest => [acc.reverse ++ rest]
  | _ + 1, acc, [] => [acc.reverse]
  | fuel + 1, acc, [c] => splitSentAux fuel (c :: acc) []
  | fuel + 1, acc, p :: w :: r =>
    if sentencePunct p && pyIsSpace w then
      acc.reverse :: splitSentAux fuel [] ((w :: r).dropWhile pyIsSpace)
    else
      splitSentAux fuel (p :: acc) (w :: r)

/-- `re.split(r'[.!?]\s+', s)`. -/
def pySplitSent (s : List Char) : List (List Char) :=
  splitSentAux (s.length + 1) [] s

/-- A transcript entry `{text, start, duration}`; timing fields are floats in
the source and are never read by the core logic, modelled as rationals. -/
structure TranscriptEntry where
  text : List Char
  start : Rat
  duration : Rat
  deriving DecidableEq

/-- One iteration of the entry loop of `extract_dialogue_segments`
(process_transcripts.py lines 26-47): state is `(segments, current_segment)`. -/
def entryStep (minL maxL : Nat) (st : List (List Char) × List Char)
    (e : TranscriptEntry) : List (List Char) × List Char :=
  let t := pyStrip e.text
  if t = [] then st
  else
    let cur := if st.2 = [] then t else st.2 ++ ' ' :: t
    if minL ≤ cur.length then
      let sentences := pySplitSent cur
      (st.1 ++ sentences.dropLast.filterMap (fun sen =>
          let sen' := pyStrip sen
          if minL ≤ sen'.length ∧ sen'.length ≤ maxL then some sen' else none),
        sentences.getLastD [])
    else (st.1, cur)

/-- process_transcripts.py, `extract_dialogue_segments` (lines 20-53). -/
def extract_dialogue_segments (entries : List TranscriptEntry)
    (minL maxL : Nat) : List (List Char) :=
  let st := entries.foldl (entryStep minL maxL) ([], [])
  (if minL ≤ st.2.length then st.1 ++ [st.2] else st.1).take 30

/-- `true` iff the string contains `.`, `!` or `?` immediately followed
by a whitespace character. -/
def hasSentenceBoundary : List Char → Bool
  | [] => false
  | [_] => false
  | a :: b :: r => (sentencePunct a && pyIsSpace b) || hasSentenceBoundary (b :: r)

/-- Tokens of the translation regexes: a literal character, lazy `.*?`
(any character except newline, shortest match first), and the captured
greedy `([가-힣]+)` (every pattern has at most this one group). -/
inductive RTok : Type
  | lit (c : Char)
  | lazyAny
  | grpHangulPlus
  deriving DecidableEq

/-- Work items of the matcher: `run` matches a token list against a string;
`plus` backtracks the greedy group from length `k` downwards. -/
inductive MJob : Type
  | run (ts : List RTok) (s : List Char)
  | plus (ts : List RTok) (s : List Char) (k : Nat)

/-- The class `[가-힣]` (precomposed Hangul syllables U+AC00..U+D7A3). -/
def isHangulSyl (c : Char) : Bool :=
  decide (0xAC00 ≤ c.toNat) && decide (c.toNat ≤ 0xD7A3)

/-- Character match under `re.IGNORECASE` (the concrete patterns contain
no cased letters, ASCII folding is faithful here). -/
def charIEq (p c : Char) : Bool :=
  p == c || p.toLower == c.toLower

/-- Anchored matcher: returns the number of characters consumed by the
preferred (leftmost, lazy-minimal, greedy-plus-with-backtracking) match and
the text of the capture group, if one participated.  Each recursive call
decreases the lexicographic measure (string length, job size), so fuel
`(ts.length + 2) * (s.length + 1)` always suffices. -/
def reMatchAux : Nat → MJob → Option (Nat × Option (List Char))
  | 0, _ => none
  | fuel + 1, MJob.run ts s =>
    match ts with
    | [] => some (0, none)
    | RTok.lit c :: ts' =>
      match s with
      | [] => none
      | x :: s' =>
        if charIEq c x then
          (reMatchAux fuel (MJob.run ts' s')).map (fun r => (r.1 + 1, r.2))
        else none
    | RTok.lazyAny :: ts' =>
      match reMatchAux fuel (MJob.run ts' s) with
      | some r => some r
      | none =>
        match s with
        | [] => none
        | x :: s' =>
          if x = '\n' then none
          else (reMatchAux fuel (MJob.run (RTok.lazyAny :: ts') s')).map
            (fun r => (r.1 + 1, r.2))
    | RTok.grpHangulPlus :: ts' =>
      reMatchAux fuel (MJob.plus ts' s ((s.takeWhile isHangulSyl).length))
  | fuel + 1, MJob.plus ts s k =>
    match k with
    | 0 => none
    | k' + 1 =>
      match reMatchAux fuel (MJob.run ts (s.drop (k' + 1))) with
      | some r => some ((k' + 1) + r.1, some (s.take (k' + 1)))
      | none => reMatchAux fuel (MJob.plus ts s k')

/-- Fuel that always suffices for `reMatchAux` (see its docstring). -/
def reFuel (ts : List RTok) (s : List Char) : Nat :=
  (ts.length + 2) * (s.length + 1) + 1

/-- Anchored match of a token list at the start of `s`. -/
def reMatchTop (ts : List RTok) (s : List Char) : Option (Nat × Option (List Char)) :=
  reMatchAux (reFuel ts s) (MJob.run ts s)

/-- `re.search`: leftmost match; returns (start index, consumed length, capture). -/
def reSearch (ts : List RTok) : List Char → Option (Nat × Nat × Option (List Char))
  | [] =>
    (match reMatchTop ts [] with
     | some (n, cap) => some (0, n, cap)
     | none => none)
  | x :: s' =>
    match reMatchTop ts (x :: s') with
    | some (n, cap) => some (0, n, cap)
    | none => (reSearch ts s').map (fun r => (r.1 + 1, r.2.1, r.2.2))

/-- Scanner for `re.sub(pattern, repl, s)`: replace each leftmost
non-overlapping match, scanning left to right.  Every recursive call drops
at least one character of `s`, so fuel `s.length + 1` suffices; the
zero-width equations are unreachable for the concrete patterns used here,
which cannot match the empty string. -/
def reSubAux : Nat → List RTok → List Char → List Char → List Char
  | 0, _, _, s => s
  | fuel + 1, ts, repl, s =>
    match reMatchTop ts s with
    | some (n + 1, _) => repl ++ reSubAux fuel ts repl (s.drop (n + 1))
    | some (0, _) =>
      match s with
      | [] => repl
      | x :: s' => repl ++ x :: reSubAux fuel ts repl s'
    | none =>
      match s with
      | [] => []
      | x :: s' => x :: reSubAux fuel ts repl s'

/-- `re.sub(pattern, repl, s)` with a plain replacement string. -/
def reSubAll (ts : List RTok) (repl : List Char) (s : List Char) : List Char :=
  reSubAux (s.length + 1) ts repl s

/-- Literal characters of a pattern fragment. -/
def litToks (s : String) : List RTok :=
  s.toList.map RTok.lit

/-- enhance_translations.py line 12: `안녕하세요.*?저는.*?([가-힣]+).*?라고 합니다`. -/
def pat1 : List RTok :=
  litToks ("안녕하세요") ++ [RTok.lazyAny] ++ litToks ("저는") ++
    [RTok.lazyAny, RTok.grpHangulPlus, RTok.lazyAny] ++ litToks ("라고 합니다")

/-- Line 13: `안녕하십니까.*?([가-힣]+).*?라고 합니다`. -/
def pat2 : List RTok :=
  litToks ("안녕하십니까") ++ [RTok.lazyAny, RTok.grpHangulPlus, RTok.lazyAny] ++
    litToks ("라고 합니다")

/-- Line 16: `제 소개를.*?박사 과정.*?대학원`. -/
def pat3 : List RTok :=
  litToks ("제 소개를") ++ [RTok.lazyAny] ++ litToks ("박사 과정") ++
    [RTok.lazyAny] ++ litToks ("대학원")

/-- Line 17: `오늘은.*?([가-힣]+).*?에 대해서.*?다뤄.*?보려고`. -/
def pat4 : List RTok :=
  litToks ("오늘은") ++ [RTok.lazyAny, RTok.grpHangulPlus, RTok.lazyAny] ++
    litToks ("에 대해서") ++ [RTok.lazyAny] ++ litToks ("다뤄") ++
    [RTok.lazyAny] ++ litToks ("보려고")

/-- Line 18: `오늘은.*?([가-힣]+).*?에 대해서.*?공부.*?할.*?예정`. -/
def pat5 : List RTok :=
  litToks ("오늘은") ++ [RTok.lazyAny, RTok.grpHangulPlus, RTok.lazyAny] ++
    litToks ("에 대해서") ++ [RTok.lazyAny] ++ litToks ("공부") ++
    [RTok.lazyAny] ++ litToks ("할") ++ [RTok.lazyAny] ++ litToks ("예정")

/-- Line 21: `머신러닝.*?기계 학습.*?강의`. -/
def pat6 : List RTok :=
  litToks ("머신러닝") ++ [RTok.lazyAny] ++ litToks ("기계 학습") ++
    [RTok.lazyAny] ++ litToks ("강의")

/-- Line 22: `기계 학습이 무엇이고`. -/
def pat7 : List RTok := litToks ("기계 학습이 무엇이고")

/-- Line 23: `다섯 가지.*?섹션`. -/
def pat8 : List RTok :=
  litToks ("다섯 가지") ++ [RTok.lazyAny] ++ litToks ("섹션")

/-- Line 24: `알고리즘.*?방법론`. -/
def pat9 : List RTok :=
  litToks ("알고리즘") ++ [RTok.lazyAny] ++ litToks ("방법론")

/-- Line 27: `딥러닝.*?신경망`. -/
def pat10 : List RTok :=
  litToks ("딥러닝") ++ [RTok.lazyAny] ++ litToks ("신경망")

/-- Line 28: `컴퓨터 비전.*?비전`. -/
def pat11 : List RTok :=
  litToks ("컴퓨터 비전") ++ [RTok.lazyAny] ++ litToks ("비전")

/-- Line 29: `이미지 데이터.*?특징.*?추출`. -/
def pat12 : List RTok :=
  litToks ("이미지 데이터") ++ [RTok.lazyAny] ++ litToks ("특징") ++
    [RTok.lazyAny] ++ litToks ("추출")

/-- Line 32: `인공지능.*?개론`. -/
def pat13 : List RTok :=
  litToks ("인공지능") ++ [RTok.lazyAny] ++ litToks ("개론")

/-- Line 33: `알파고.*?알파.*?고`. -/
def pat14 : List RTok :=
  litToks ("알파고") ++ [RTok.lazyAny] ++ litToks ("알파") ++
    [RTok.lazyAny] ++ litToks ("고")

/-- Line 34: `바둑.*?대국`. -/
def pat15 : List RTok :=
  litToks ("바둑") ++ [RTok.lazyAny] ++ litToks ("대국")

/-- Line 37: `빅데이터.*?분석`. -/
def pat16 : List RTok :=
  litToks ("빅데이터") ++ [RTok.lazyAny] ++ litToks ("분석")

/-- Line 38: `스포츠.*?적용`. -/
def pat17 : List RTok :=
  litToks ("스포츠") ++ [RTok.lazyAny] ++ litToks ("적용")

/-- Line 39: `퍼포먼스.*?측정`. -/
def pat18 : List RTok :=
  litToks ("퍼포먼스") ++ [RTok.lazyAny] ++ litToks ("측정")

/-- Line 42: `로지스틱.*?회귀.*?분석`. -/
def pat19 : List RTok :=
  litToks ("로지스틱") ++ [RTok.lazyAny] ++ litToks ("회귀") ++
    [RTok.lazyAny] ++ litToks ("분석")

/-- Line 43: `분류.*?모델`. -/
def pat20 : List RTok :=
  litToks ("분류") ++ [RTok.lazyAny] ++ litToks ("모델")

/-- Line 44: `시그모이드.*?함수`. -/
def pat21 : List RTok :=
  litToks ("시그모이드") ++ [RTok.lazyAny] ++ litToks ("함수")

/-- Line 45: `소프트맥스.*?함수`. -/
def pat22 : List RTok :=
  litToks ("소프트맥스") ++ [RTok.lazyAny] ++ litToks ("함수")

/-- Line 48: `다음.*?예제.*?넘어가`. -/
def pat23 : List RTok :=
  litToks ("다음") ++ [RTok.lazyAny] ++ litToks ("예제") ++
    [RTok.lazyAny] ++ litToks ("넘어가")

/-- Line 49: `노트.*?열고.*?따라와`. -/
def pat24 : List RTok :=
  litToks ("노트") ++ [RTok.lazyAny] ++ litToks ("열고") ++
    [RTok.lazyAny] ++ litToks ("따라와")

/-- Line 50: `연습.*?가장.*?좋은.*?방법`. -/
def pat25 : List RTok :=
  litToks ("연습") ++ [RTok.lazyAny] ++ litToks ("가장") ++
    [RTok.lazyAny] ++ litToks ("좋은") ++ [RTok.lazyAny] ++ litToks ("방법")

/-- Line 51: `함께.*?공부.*?하겠습니다`. -/
def pat26 : List RTok :=
  litToks ("함께") ++ [RTok.lazyAny] ++ litToks ("공부") ++
    [RTok.lazyAny] ++ litToks ("하겠습니다")

/-- Line 52: `차근차근.*?코스를.*?통해서`. -/
def pat27 : List RTok :=
  litToks ("차근차근") ++ [RTok.lazyAny] ++ litToks ("코스를") ++
    [RTok.lazyAny] ++ litToks ("통해서")

/-- Line 53: `예를.*?들면`. -/
def pat28 : List RTok :=
  litToks ("예를") ++ [RTok.lazyAny] ++ litToks ("들면")

/-- Line 54: `이제.*?배워.*?보겠습니다`. -/
def pat29 : List RTok :=
  litToks ("이제") ++ [RTok.lazyAny] ++ litToks ("배워") ++
    [RTok.lazyAny] ++ litToks ("보겠습니다")

/-- Line 55: `정리.*?해.*?보겠습니다`. -/
def pat30 : List RTok :=
  litToks ("정리") ++ [RTok.lazyAny] ++ litToks ("해") ++
    [RTok.lazyAny] ++ litToks ("보겠습니다")

/-- Derivation function of lines 12-13. -/
def helloF (g : List Char) : List Char :=
  ("Hello, I'm ").toList ++ g ++ (", and I'll be teaching this course.").toList

/-- Derivation function of line 17. -/
def coverF (g : List Char) : List Char :=
  ("Today we will cover ").toList ++ g ++ (".").toList

/-- Derivation function of line 18. -/
def studyF (g : List Char) : List Char :=
  ("Today we will study ").toList ++ g ++ (".").toList

/-- A translation rule: a static replacement string or a derivation
function of the capture group. -/
inductive TRule : Type
  | replace (pat : List RTok) (repl : List Char)
  | derive (pat : List RTok) (f : List Char → List Char)

/-- enhance_translations.py, `TRANSLATION_PATTERNS` (lines 10-56), in
dictionary insertion order. -/
def TRANSLATION_PATTERNS : List TRule :=
  [TRule.derive pat1 helloF,
   TRule.derive pat2 helloF,
   TRule.replace pat3 (("I am currently a PhD student at Tech University AI Graduate School.").toList),
   TRule.derive pat4 coverF,
   TRule.derive pat5 studyF,
   TRule.replace pat6 (("This is a machine learning course.").toList),
   TRule.replace pat7 (("what machine learning is").toList),
   TRule.replace pat8 (("five major sections").toList),
   TRule.replace pat9 (("algorithms and methodologies").toList),
   TRule.replace pat10 (("deep learning and neural networks").toList),
   TRule.replace pat11 (("computer vision").toList),
   TRule.replace pat12 (("extract features from image data").toList),
   TRule.replace pat13 (("introduction to artificial intelligence").toList),
   TRule.replace pat14 (("AlphaGo").toList),
   TRule.replace pat15 (("Go game matches").toList),
   TRule.replace pat16 (("big data analysis").toList),
   TRule.replace pat17 (("application in sports").toList),
   TRule.replace pat18 (("performance measurement").toList),
   TRule.replace pat19 (("logistic regression analysis").toList),
   TRule.replace pat20 (("classification model").toList),
   TRule.replace pat21 (("sigmoid function").toList),
   TRule.replace pat22 (("softmax function").toList),
   TRule.replace pat23 (("Let's move on to the next example.").toList),
   TRule.replace pat24 (("Please open your notebook and follow along.").toList),
   TRule.replace pat25 (("Practice is the best way to learn.").toList),
   TRule.replace pat26 (("We will study together.").toList),
   TRule.replace pat27 (("step by step through this course").toList),
   TRule.replace pat28 (("For example,").toList),
   TRule.replace pat29 (("Now let's learn").toList),
   TRule.replace pat30 (("Let's summarize").toList)]

/-- One iteration of the rule loop (enhance_translations.py lines 63-72):
a static rule substitutes inside `result` if its pattern occurs in the
original text; a derivation rule overwrites `result` with the function of
the match. -/
def applyRule (t : List Char) (result : List Char) : TRule → List Char
  | TRule.replace pat repl =>
    if (reSearch pat t).isSome then reSubAll pat repl result else result
  | TRule.derive pat f =>
    match reSearch pat t with
    | some (_, _, cap) => f (cap.getD [])
    | none => result

/-- The rule loop of `translate_korean_text` (lines 60-72). -/
def translateLoop (t : List Char) : List Char :=
  TRANSLATION_PATTERNS.foldl (applyRule t) t

/-- The keyword scan of `translate_korean_text` (lines 77-95): nine keyword
groups tested in order, each appending at most one label. -/
def conceptsOf (t : List Char) : List (List Char) :=
  (if pySubstr (("머신러닝").toList) t || pySubstr (("기계 학습").toList) t then
    [("machine learning").toList] else []) ++
  (if pySubstr (("딥러닝").toList) t then [("deep learning").toList] else []) ++
  (if pySubstr (("인공지능").toList) t || pySubstr (("AI").toList) t then
    [("artificial intelligence").toList] else []) ++
  (if pySubstr (("컴퓨터 비전").toList) t || pySubstr (("비전").toList) t then
    [("computer vision").toList] else []) ++
  (if pySubstr (("로지스틱").toList) t || pySubstr (("회귀").toList) t then
    [("logistic regression").toList] else []) ++
  (if pySubstr (("빅데이터").toList) t then [("big data").toList] else []) ++
  (if pySubstr (("분석").toList) t then [("analysis").toList] else []) ++
  (if pySubstr (("학습").toList) t then [("learning").toList] else []) ++
  (if pySubstr (("모델").toList) t then [("model").toList] else [])

/-- The ordered label pool of the nine keyword groups. -/
def conceptLabels : List (List Char) :=
  [("machine learning").toList, ("deep learning").toList,
   ("artificial intelligence").toList, ("computer vision").toList,
   ("logistic regression").toList, ("big data").toList,
   ("analysis").toList, ("learning").toList, ("model").toList]

/-- enhance_translations.py, `translate_korean_text` (lines 58-100).
The float test `len(result) < len(ko_text) * 0.3` is modelled by the exact
rational comparison `10 * len(result) < 3 * len(ko_text)`; for the integer
operand sizes involved the two tests agree. -/
def translate_korean_text (ko_text : List Char) : List Char :=
  let result := translateLoop ko_text
  if (result = ko_text ∨ 10 * result.length < 3 * ko_text.length) ∧
      conceptsOf ko_text ≠ [] then
    ("We will discuss ").toList ++
      List.intercalate ((", ").toList) (conceptsOf ko_text) ++
      (" in this lecture. ").toList ++ ko_text.take 50 ++ ("...").toList
  else if result ≠ ko_text then result
  else ("[Translation: ").toList ++ ko_text.take 80 ++ ("...]").toList

/-- `true` iff no derivation rule after index `k` matches `t`. -/
def noLaterDeriveFires (t : List Char) (k : Nat) : Bool :=
  (TRANSLATION_PATTERNS.drop (k + 1)).all (fun r =>
    match r with
    | TRule.derive pat _ => (reSearch pat t).isNone
    | TRule.replace _ _ => true)

/-- The self-introduction test input of the spec. -/
def greetKo : List Char := ("안녕하세요 저는 민수라고 합니다").toList

/-- The no-rule, no-keyword test input of the spec. -/
def weatherKo : List Char := ("오늘 날씨가 좋습니다").toList

/-- An input matched by both derivation rules `pat4` and `pat5` and by the
static rule `pat20`. -/
def mixedKo : List Char := ("오늘은분류모델에 대해서다뤄보려고공부할예정").toList

/-- The binary relation "this adjacent pair is not a sentence boundary". -/
def sentR (a b : Char) : Prop :=
  (sentencePunct a && pyIsSpace b) = false

/-- A sample entry (for closed instances of the hyperproperty claims). -/
def entryA : TranscriptEntry := ⟨("hello").toList, 0, 0⟩

/-- Same text as `entryA`, different timing fields. -/
def entryB : TranscriptEntry := ⟨("hello").toList, 1, 1⟩

/-- A boundary-free text long enough to be emitted as a segment. -/
def cleanLong : List Char :=
  ("this is one long enough piece of text with no boundary").toList

lemma pyIdx_natCast (len a : Nat) : pyIdx len (a : Int) = min a len := by
  unfold pyIdx
  rw [if_neg (by omega)]
  simp

lemma pySlice_natCast {α : Type} (l : List α) (a b : Nat) :
    pySlice l (a : Int) (b : Int) =
      (l.drop (min a l.length)).take (min b l.length - min a l.length) := by
  unfold pySlice
  rw [pyIdx_natCast, pyIdx_natCast]

lemma fdiv_natCast (m n : Nat) :
    Int.fdiv (m : Int) (n : Int) = ((m / n : Nat) : Int) :=
  (Int.ofNat_fdiv m n).symm

lemma split_eq_splitNat {α : Type} (l : List α) (n : Nat) (hn : 1 ≤ n) :
    split_into_sessions l (n : Int) = some (splitNat l n) := by
  unfold split_into_sessions splitNat
  rw [if_neg (by exact_mod_cast Nat.one_le_iff_ne_zero.mp hn)]
  congr 1
  unfold pyRangeInt
  rw [Int.toNat_ofNat, List.map_map]
  refine List.map_congr_left ?_
  intro i hi
  have hiN : i < n := List.mem_range.mp hi
  have hnp : n * (l.length / n) ≤ l.length := by
    rw [Nat.mul_comm]; exact Nat.div_mul_le_self _ _
  simp only [Function.comp, fdiv_natCast, Int.ofNat_eq_coe]
  by_cases h : i + 1 < n
  · have h1 : i * (l.length / n) + l.length / n ≤ l.length := by
      calc i * (l.length / n) + l.length / n = (i + 1) * (l.length / n) := by ring
        _ ≤ n * (l.length / n) := Nat.mul_le_mul_right _ (by omega)
        _ ≤ l.length := hnp
    rw [if_pos (by omega : (i : Int) < (n : Int) - 1), if_pos h]
    rw [show ((i : Int) * ((l.length / n : Nat) : Int)) =
        (((i * (l.length / n) : Nat)) : Int) from (Nat.cast_mul i (l.length / n)).symm]
    rw [show ((((i * (l.length / n) : Nat)) : Int) + ((l.length / n : Nat) : Int)) =
        (((i * (l.length / n) + l.length / n : Nat)) : Int) from (Nat.cast_add _ _).symm]
    rw [pySlice_natCast, min_eq_left h1,
      min_eq_left (le_trans (Nat.le_add_right _ _) h1)]
    congr 1
    exact Nat.add_sub_cancel_left _ _
  · have h2 : i * (l.length / n) ≤ l.length := by
      calc i * (l.length / n) ≤ n * (l.length / n) := Nat.mul_le_mul_right _ (by omega)
        _ ≤ l.length := hnp
    rw [if_neg (by omega : ¬ (i : Int) < (n : Int) - 1), if_neg h]
    rw [show ((i : Int) * ((l.length / n : Nat) : Int)) =
        (((i * (l.length / n) : Nat)) : Int) from (Nat.cast_mul i (l.length / n)).symm]
    rw [pySlice_natCast, min_eq_left h2, min_self]
    apply List.take_of_length_le
    rw [List.length_drop]

lemma splitNat_length {α : Type} (l : List α) (n : Nat) : (splitNat l n).length = n := by
  simp [splitNat]

lemma splitNat_sizes {α : Type} (l : List α) (n : Nat) :
    (splitNat l n).map List.length = (List.range n).map (fun i =>
      if i + 1 < n then l.length / n
      else l.length - (n - 1) * (l.length / n)) := by
  unfold splitNat
  rw [List.map_map]
  refine List.map_congr_left ?_
  intro i hi
  have hiN : i < n := List.mem_range.mp hi
  have hnp : n * (l.length / n) ≤ l.length := by
    rw [Nat.mul_comm]; exact Nat.div_mul_le_self _ _
  by_cases h : i + 1 < n
  · simp only [Function.comp, if_pos h, List.length_take, List.length_drop]
    have h1 : i * (l.length / n) + l.length / n ≤ l.length := by
      calc i * (l.length / n) + l.length / n = (i + 1) * (l.length / n) := by ring
        _ ≤ n * (l.length / n) := Nat.mul_le_mul_right _ (by omega)
        _ ≤ l.length := hnp
    omega
  · simp only [Function.comp, if_neg h, List.length_drop]
    have hieq : i = n - 1 := by omega
    rw [hieq]

lemma join_chunks {α : Type} (p : Nat) (l : List α) (m : Nat) :
    ((List.range m).map (fun i => (l.drop (i * p)).take p)).flatten = l.take (m * p) := by
  induction m with
  | zero => simp
  | succ k ih =>
    rw [List.range_succ, List.map_append, List.flatten_append]
    simp only [List.map_cons, List.map_nil, List.flatten_cons, List.flatten_nil,
      List.append_nil]
    rw [ih, Nat.succ_mul, List.take_add]

lemma splitNat_join {α : Type} (l : List α) (n : Nat) (hn : 1 ≤ n) :
    (splitNat l n).flatten = l := by
  obtain ⟨m, rfl⟩ : ∃ m, n = m + 1 := ⟨n - 1, by omega⟩
  unfold splitNat
  rw [List.range_succ, List.map_append]
  rw [List.map_congr_left (l := List.range m)
    (g := fun i => (l.drop (i * (l.length / (m + 1)))).take (l.length / (m + 1)))
    (fun i hi => by rw [if_pos (by have := List.mem_range.mp hi; omega)])]
  simp only [List.map_cons, List.map_nil, List.flatten_append, List.flatten_cons,
    List.flatten_nil, List.append_nil]
  rw [if_neg (by omega), join_chunks]
  exact List.take_append_drop _ _

lemma hasSentenceBoundary_eq_false_iff (l : List Char) :
    hasSentenceBoundary l = false ↔ List.Chain' sentR l := by
  induction l with
  | nil => simp [hasSentenceBoundary]
  | cons a t ih =>
    cases t with
    | nil => simp [hasSentenceBoundary]
    | cons b r =>
      rw [List.chain'_cons]
      simp only [hasSentenceBoundary, Bool.or_eq_false_iff]
      rw [ih]
      exact and_congr_left (fun _ => Iff.rfl)

lemma splitSentAux_ne_nil : ∀ (fuel : Nat) (acc rest : List Char),
    splitSentAux fuel acc rest ≠ [] := by
  intro fuel
  induction fuel with
  | zero => intro acc rest; simp [splitSentAux]
  | succ f ih =>
    intro acc rest
    match rest with
    | [] => simp [splitSentAux]
    | [c] => simp only [splitSentAux]; exact ih _ _
    | p :: w :: r =>
      simp only [splitSentAux]
      split
      · simp
      · exact ih _ _

lemma splitSentAux_clean : ∀ (fuel : Nat) (acc rest : List Char),
    rest.length < fuel →
    List.Chain' sentR acc.reverse →
    (∀ p ∈ acc.head?, ∀ w ∈ rest.head?, sentR p w) →
    ∀ piece ∈ splitSentAux fuel acc rest, List.Chain' sentR piece := by
  intro fuel
  induction fuel with
  | zero => intro acc rest h; omega
  | succ f ih =>
    intro acc rest hlen hacc hbr piece hp
    match rest with
    | [] =>
      simp only [splitSentAux, List.mem_singleton] at hp
      subst hp; exact hacc
    | [w] =>
      simp only [splitSentAux] at hp
      refine ih (w :: acc) [] (by simp at hlen ⊢; omega) ?_ ?_ piece hp
      · rw [List.reverse_cons, List.chain'_append]
        refine ⟨hacc, List.chain'_singleton _, ?_⟩
        intro x hx y hy
        rw [List.getLast?_reverse] at hx
        simp only [List.head?_cons, Option.mem_some_iff] at hy
        subst hy
        exact hbr x hx w (by simp)
      · intro a ha b hb
        simp at hb
    | p :: w :: r =>
      simp only [splitSentAux] at hp
      split at hp
      case isTrue hcond =>
        rcases List.mem_cons.mp hp with hpe | hp'
        · subst hpe; exact hacc
        · refine ih [] _ ?_ (by simp) (by simp) piece hp'
          have hd : ((w :: r).dropWhile pyIsSpace).length ≤ (w :: r).length :=
            (List.dropWhile_sublist _).length_le
          simp only [List.length_cons] at hlen hd ⊢
          omega
      case isFalse hcond =>
        refine ih (p :: acc) (w :: r) (by simp at hlen ⊢; omega) ?_ ?_ piece hp
        · rw [List.reverse_cons, List.chain'_append]
          refine ⟨hacc, List.chain'_singleton _, ?_⟩
          intro x hx y hy
          rw [List.getLast?_reverse] at hx
          simp only [List.head?_cons, Option.mem_some_iff] at hy
          subst hy
          exact hbr x hx p (by simp)
        · intro a ha b hb
          simp only [List.head?_cons, Option.mem_some_iff] at ha hb
          subst ha; subst hb
          simp only [sentR]
          exact Bool.not_eq_true _ ▸ (by simpa using hcond)

lemma pySplitSent_all_clean (cur : List Char) :
    ∀ x ∈ pySplitSent cur, List.Chain' sentR x := by
  intro x hx
  exact splitSentAux_clean (cur.length + 1) [] cur (by omega) (by simp) (by simp) x hx

lemma pySplitSent_ne_nil (cur : List Char) : pySplitSent cur ≠ [] :=
  splitSentAux_ne_nil _ _ _

lemma getLastD_mem {α : Type} : ∀ (l : List α) (d : α), l ≠ [] → l.getLastD d ∈ l := by
  intro l
  induction l with
  | nil => intro d h; exact absurd rfl h
  | cons a t ih =>
    intro d h
    cases t with
    | nil => simp [List.getLastD]
    | cons b r =>
      rw [show (a :: b :: r).getLastD d = (b :: r).getLastD a from by
        cases r <;> simp [List.getLastD]]
      exact List.mem_cons_of_mem _ (ih a (by simp))

lemma pyStrip_within (l : List Char) : pyStrip l <:+: l := by
  unfold pyStrip
  have h1 : l.dropWhile pyIsSpace <:+ l := List.dropWhile_suffix _
  have h2 : (l.dropWhile pyIsSpace).reverse.dropWhile pyIsSpace <:+
      (l.dropWhile pyIsSpace).reverse := List.dropWhile_suffix _
  have h3 : ((l.dropWhile pyIsSpace).reverse.dropWhile pyIsSpace).reverse <+:
      l.dropWhile pyIsSpace :=
    List.reverse_suffix.mp (by rw [List.reverse_reverse]; exact h2)
  exact (List.IsPrefix.isInfix h3).trans (List.IsSuffix.isInfix h1)

lemma entryStep_clean (minL maxL : Nat) (st : List (List Char) × List Char)
    (e : TranscriptEntry)
    (h1 : ∀ x ∈ st.1, List.Chain' sentR x)
    (h2 : List.Chain' sentR st.2 ∨ st.2.length < minL) :
    (∀ x ∈ (entryStep minL maxL st e).1, List.Chain' sentR x) ∧
    (List.Chain' sentR (entryStep minL maxL st e).2 ∨
      (entryStep minL maxL st e).2.length < minL) := by
  simp only [entryStep]
  split
  · exact ⟨h1, h2⟩
  · split <;> split
    all_goals dsimp only
    all_goals first
      | exact ⟨h1, Or.inr (by omega)⟩
      | (refine ⟨?_, ?_⟩
         · intro x hx
           rcases List.mem_append.mp hx with hx1 | hx2
           · exact h1 x hx1
           · obtain ⟨sen, hsen, hfx⟩ := List.mem_filterMap.mp hx2
             have hsen' := (List.dropLast_sublist _).subset hsen
             have hclean := pySplitSent_all_clean _ sen hsen'
             split at hfx
             · cases hfx
               exact List.Chain'.infix hclean (pyStrip_within sen)
             · exact absurd hfx (by simp)
         · left
           exact pySplitSent_all_clean _ _ (getLastD_mem _ [] (pySplitSent_ne_nil _)))

lemma foldl_entryStep_clean (minL maxL : Nat) :
    ∀ (l : List TranscriptEntry) (st : List (List Char) × List Char),
      (∀ x ∈ st.1, List.Chain' sentR x) →
      (List.Chain' sentR st.2 ∨ st.2.length < minL) →
      (∀ x ∈ (l.foldl (entryStep minL maxL) st).1, List.Chain' sentR x) ∧
      (List.Chain' sentR (l.foldl (entryStep minL maxL) st).2 ∨
        (l.foldl (entryStep minL maxL) st).2.length < minL) := by
  intro l
  induction l with
  | nil => intro st h1 h2; exact ⟨h1, h2⟩
  | cons e t ih =>
    intro st h1 h2
    rw [List.foldl_cons]
    obtain ⟨g1, g2⟩ := entryStep_clean minL maxL st e h1 h2
    exact ih _ g1 g2

lemma entryStep_bounds (minL maxL : Nat) (st : List (List Char) × List Char)
    (e : TranscriptEntry)
    (h : ∀ x ∈ st.1, minL ≤ x.length ∧ x.length ≤ maxL) :
    ∀ x ∈ (entryStep minL maxL st e).1, minL ≤ x.length ∧ x.length ≤ maxL := by
  simp only [entryStep]
  split
  · exact h
  · split <;> split
    all_goals dsimp only
    all_goals first
      | exact h
      | (intro x hx
         rcases List.mem_append.mp hx with hx1 | hx2
         · exact h x hx1
         · obtain ⟨sen, hsen, hfx⟩ := List.mem_filterMap.mp hx2
           split at hfx
           · cases hfx
             assumption
           · exact absurd hfx (by simp))

lemma foldl_entryStep_bounds (minL maxL : Nat) :
    ∀ (l : List TranscriptEntry) (st : List (List Char) × List Char),
      (∀ x ∈ st.1, minL ≤ x.length ∧ x.length ≤ maxL) →
      ∀ x ∈ (l.foldl (entryStep minL maxL) st).1, minL ≤ x.length ∧ x.length ≤ maxL := by
  intro l
  induction l with
  | nil => intro st h; exact h
  | cons e t ih =>
    intro st h
    rw [List.foldl_cons]
    exact ih _ (entryStep_bounds minL maxL st e h)

lemma entryStep_text (minL maxL : Nat) (st : List (List Char) × List Char)
    (e₁ e₂ : TranscriptEntry) (h : e₁.text = e₂.text) :
    entryStep minL maxL st e₁ = entryStep minL maxL st e₂ := by
  unfold entryStep
  rw [h]

lemma foldl_entryStep_text (minL maxL : Nat) :
    ∀ (l₁ l₂ : List TranscriptEntry) (st : List (List Char) × List Char),
      l₁.map TranscriptEntry.text = l₂.map TranscriptEntry.text →
      l₁.foldl (entryStep minL maxL) st = l₂.foldl (entryStep minL maxL) st := by
  intro l₁
  induction l₁ with
  | nil =>
    intro l₂ st h
    rw [List.map_nil] at h
    rw [List.map_eq_nil_iff.mp h.symm]
  | cons e t ih =>
    intro l₂ st h
    cases l₂ with
    | nil => simp at h
    | cons e₂ t₂ =>
      simp only [List.map_cons, List.cons.injEq] at h
      rw [List.foldl_cons, List.foldl_cons, entryStep_text minL maxL st e e₂ h.1,
        ih t₂ _ h.2]

lemma pySlice_map {α β : Type} (f : α → β) (l : List α) (a b : Int) :
    pySlice (l.map f) a b = (pySlice l a b).map f := by
  unfold pySlice
  rw [List.length_map, ← List.map_drop, ← List.map_take]

lemma split_map {α β : Type} (f : α → β) (l : List α) (n : Int) :
    split_into_sessions (l.map f) n =
      Option.map (List.map (List.map f)) (split_into_sessions l n) := by
  unfold split_into_sessions
  by_cases h : n = 0
  · simp [h]
  · rw [if_neg h, if_neg h, Option.map_some']
    congr 1
    rw [List.map_map]
    refine List.map_congr_left ?_
    intro i hi
    simp only [Function.comp, List.length_map]
    exact pySlice_map f l _ _

set_option maxRecDepth 8000 in
/-- Claim C1: for every entry sequence and every `num_sessions ≥ 1`,
`split_into_sessions` returns exactly `num_sessions` sessions, every session
except the last has `total / num_sessions` entries, the last absorbs the
remainder, concatenating the sessions reproduces the input exactly, and a
237-entry input split five ways has sizes `[47, 47, 47, 47, 49]`. -/
theorem C1_split_sessions :
    (∀ (α : Type) (entries : List α) (n : Nat), 1 ≤ n →
      ∃ ss, split_into_sessions entries (n : Int) = some ss ∧
        ss.length = n ∧
        ss.map List.length = (List.range n).map (fun i =>
          if i + 1 < n then entries.length / n
          else entries.length - (n - 1) * (entries.length / n)) ∧
        ss.flatten = entries) ∧
    (∃ ss, split_into_sessions (List.replicate 237 (0 : Nat)) ((5 : Nat) : Int) = some ss ∧
      ss.map List.length = [47, 47, 47, 47, 49]) := by
  constructor
  · intro α entries n hn
    exact ⟨splitNat entries n, split_eq_splitNat entries n hn, splitNat_length entries n,
      splitNat_sizes entries n, splitNat_join entries n hn⟩
  · refine ⟨splitNat (List.replicate 237 (0 : Nat)) 5,
      split_eq_splitNat _ _ (by omega), ?_⟩
    rw [splitNat_sizes]
    decide

/-- Witness for C1 at a concrete input. -/
theorem C1_split_sessions_witness :
    ∃ ss, split_into_sessions ([0, 1, 2] : List Nat) ((2 : Nat) : Int) = some ss ∧
      ss.length = 2 ∧
      ss.map List.length = (List.range 2).map (fun i =>
        if i + 1 < 2 then ([0, 1, 2] : List Nat).length / 2
        else ([0, 1, 2] : List Nat).length - (2 - 1) * (([0, 1, 2] : List Nat).length / 2)) ∧
      ss.flatten = [0, 1, 2] :=
  C1_split_sessions.1 Nat [0, 1, 2] 2 (by omega)

/-- Claim C2: `extract_dialogue_segments` returns at most 30 segments, and
every returned segment except possibly one trailing segment has length in
`[minL, maxL]`; the trailing one still has length at least `minL`. -/
theorem C2_segment_bounds (entries : List TranscriptEntry) (minL maxL : Nat) :
    (extract_dialogue_segments entries minL maxL).length ≤ 30 ∧
    ∃ l₁ l₂, extract_dialogue_segments entries minL maxL = l₁ ++ l₂ ∧
      l₂.length ≤ 1 ∧
      (∀ s ∈ l₁, minL ≤ s.length ∧ s.length ≤ maxL) ∧
      (∀ s ∈ l₂, minL ≤ s.length) := by
  have hb := foldl_entryStep_bounds minL maxL entries ([], []) (by intro x hx; simp at hx)
  constructor
  · simp only [extract_dialogue_segments]
    rw [List.length_take]
    omega
  · simp only [extract_dialogue_segments]
    by_cases hf : minL ≤ (entries.foldl (entryStep minL maxL) ([], [])).2.length
    · rw [if_pos hf, List.take_append_eq_append_take]
      refine ⟨_, _, rfl, ?_, ?_, ?_⟩
      · rw [List.length_take]
        simp
      · intro s hs
        exact hb s (List.mem_of_mem_take hs)
      · intro s hs
        have hs' := List.mem_of_mem_take hs
        rw [List.mem_singleton] at hs'
        subst hs'
        exact hf
    · rw [if_neg hf]
      refine ⟨_, [], (List.append_nil _).symm, by simp, ?_, by simp⟩
      intro s hs
      exact hb s (List.mem_of_mem_take hs)

/-- Witness for C2 at a concrete input. -/
theorem C2_segment_bounds_witness :
    (extract_dialogue_segments [entryA] 20 200).length ≤ 30 ∧
    ∃ l₁ l₂, extract_dialogue_segments [entryA] 20 200 = l₁ ++ l₂ ∧
      l₂.length ≤ 1 ∧
      (∀ s ∈ l₁, 20 ≤ s.length ∧ s.length ≤ 200) ∧
      (∀ s ∈ l₂, 20 ≤ s.length) :=
  C2_segment_bounds [entryA] 20 200

/-- Claim C8 counterexample: with `num_sessions = -1` the code does not raise;
`range(-1)` is empty and the function returns the value `[]`. -/
theorem C8_counterexample :
    split_into_sessions [(0 : Nat)] (-1) = some [] := by decide

/-- Claim C8, amended: `num_sessions = 0` fails fast (the floor division
raises `ZeroDivisionError`), but a negative `num_sessions` does not raise:
the function returns an empty list of sessions. -/
theorem C8_nonpositive_sessions :
    ∀ (α : Type) (entries : List α) (n : Int), n ≤ 0 →
      (n = 0 → split_into_sessions entries n = none) ∧
      (n < 0 → split_into_sessions entries n = some []) := by
  intro α entries n _
  constructor
  · intro h
    simp [split_into_sessions, h]
  · intro h
    unfold split_into_sessions
    rw [if_neg (by omega)]
    have hr : pyRangeInt n = [] := by
      unfold pyRangeInt
      rw [Int.toNat_of_nonpos (le_of_lt h)]
      simp
    rw [hr]
    simp

/-- Witness for the amended C8 at a concrete input. -/
theorem C8_nonpositive_sessions_witness :
    split_into_sessions [(0 : Nat)] (0 : Int) = none :=
  (C8_nonpositive_sessions Nat [0] 0 (by omega)).1 rfl

/-- Claim C9 counterexample: the two functions do not literally produce
identical outputs for text-equal inputs — the sessions returned by
`split_into_sessions` carry the entries themselves, so they differ exactly
where the `start`/`duration` fields differ. -/
theorem C9_counterexample :
    [entryA].map TranscriptEntry.text = [entryB].map TranscriptEntry.text ∧
    split_into_sessions [entryA] (1 : Int) ≠ split_into_sessions [entryB] (1 : Int) := by
  refine ⟨rfl, ?_⟩
  decide

/-- Claim C9, amended: for text-equal inputs `extract_dialogue_segments`
produces identical outputs; `split_into_sessions` produces identical
outputs after projecting the carried entries to their `text` fields (its
index arithmetic never reads an entry); and for `num_sessions ≥ 1` the
concatenation of the sessions is the input in its original order. -/
theorem C9_text_dependence :
    ∀ (l₁ l₂ : List TranscriptEntry) (minL maxL : Nat) (n : Int),
      l₁.map TranscriptEntry.text = l₂.map TranscriptEntry.text →
      extract_dialogue_segments l₁ minL maxL = extract_dialogue_segments l₂ minL maxL ∧
      Option.map (List.map (List.map TranscriptEntry.text)) (split_into_sessions l₁ n) =
        Option.map (List.map (List.map TranscriptEntry.text)) (split_into_sessions l₂ n) ∧
      (1 ≤ n → ∃ ss, split_into_sessions l₁ n = some ss ∧ ss.flatten = l₁) := by
  intro l₁ l₂ minL maxL n h
  refine ⟨?_, ?_, ?_⟩
  · simp only [extract_dialogue_segments]
    rw [foldl_entryStep_text minL maxL l₁ l₂ ([], []) h]
  · rw [← split_map, ← split_map, h]
  · intro hn
    have hn' : n = ((n.toNat : Nat) : Int) := (Int.toNat_of_nonneg (by omega)).symm
    rw [hn']
    exact ⟨splitNat l₁ n.toNat, split_eq_splitNat _ _ (by omega),
      splitNat_join _ _ (by omega)⟩

/-- Witness for the amended C9 at a concrete input. -/
theorem C9_text_dependence_witness :
    Option.map (List.map (List.map TranscriptEntry.text)) (split_into_sessions [entryA] 1) =
      Option.map (List.map (List.map TranscriptEntry.text)) (split_into_sessions [entryB] 1) :=
  (C9_text_dependence [entryA] [entryB] 20 200 1 rfl).2.1

/-- Claim C10: every string returned by `extract_dialogue_segments` contains
no occurrence of `.`, `!` or `?` immediately followed by whitespace: inner
candidates and the trailing leftover are pieces of the sentence-boundary
split, so no boundary survives inside a returned segment. -/
theorem C10_no_boundary_in_segments :
    ∀ (entries : List TranscriptEntry) (minL maxL : Nat) (s : List Char),
      s ∈ extract_dialogue_segments entries minL maxL →
      hasSentenceBoundary s = false := by
  intro entries minL maxL s hs
  rw [hasSentenceBoundary_eq_false_iff]
  simp only [extract_dialogue_segments] at hs
  have hinv := foldl_entryStep_clean minL maxL entries ([], [])
    (by intro x hx; simp at hx) (Or.inl (by simp))
  have hs' := List.mem_of_mem_take hs
  split at hs'
  case isTrue hf =>
    rcases List.mem_append.mp hs' with h | h
    · exact hinv.1 s h
    · rw [List.mem_singleton] at h
      subst h
      rcases hinv.2 with hc | hlen
      · exact hc
      · omega
  case isFalse hf => exact hinv.1 s hs'

/-- Witness for C10 at a concrete input. -/
theorem C10_no_boundary_in_segments_witness :
    hasSentenceBoundary cleanLong = false :=
  C10_no_boundary_in_segments [⟨cleanLong, 0, 0⟩] 20 200 cleanLong (by decide)

lemma sublist_ite_cons {α : Type} (c : Prop) [Decidable c] (x : α) (l₁ l₂ : List α)
    (h : l₁.Sublist l₂) : ((if c then [x] else []) ++ l₁).Sublist (x :: l₂) := by
  by_cases hc : c
  · rw [if_pos hc]
    exact List.Sublist.cons₂ x h
  · rw [if_neg hc, List.nil_append]
    exact List.Sublist.cons x h

lemma conceptsOf_sublist (t : List Char) : (conceptsOf t).Sublist conceptLabels := by
  unfold conceptsOf conceptLabels
  simp only [List.append_assoc]
  apply sublist_ite_cons
  apply sublist_ite_cons
  apply sublist_ite_cons
  apply sublist_ite_cons
  apply sublist_ite_cons
  apply sublist_ite_cons
  apply sublist_ite_cons
  apply sublist_ite_cons
  split
  · exact List.Sublist.refl _
  · exact List.nil_sublist _

set_option maxRecDepth 16000 in
set_option maxHeartbeats 2000000 in
/-- Claim C3 counterexample: on `mixedKo` both derivation rules `pat4` and
`pat5` match; the last of them overwrites `result` with
`Today we will study 분류모델.`, but the static rule `pat20`, later in
declaration order, still substitutes inside that overwrite, so the final
content of `result` after the loop is not the last derivation's output. -/
theorem C3_counterexample :
    TRANSLATION_PATTERNS[3]? = some (TRule.derive pat4 coverF) ∧
    TRANSLATION_PATTERNS[4]? = some (TRule.derive pat5 studyF) ∧
    (reSearch pat4 mixedKo).isSome = true ∧
    (reSearch pat5 mixedKo).isSome = true ∧
    studyF (("분류모델").toList) = ("Today we will study 분류모델.").toList ∧
    translateLoop mixedKo = ("Today we will study classification model.").toList ∧
    translateLoop mixedKo ≠ studyF (("분류모델").toList) := by
  have h6 : translateLoop mixedKo =
      ("Today we will study classification model.").toList := by decide
  refine ⟨rfl, rfl, by decide, by decide, by decide, h6, ?_⟩
  rw [h6]
  decide

/-- Claim C3, amended: rules are consulted in declaration order; a static
rule substitutes globally inside the current `result` when its pattern
matches the original text, and a derivation rule overwrites `result`
entirely with the function of its match; when several derivation rules
match, the last one in declaration order determines the content of
`result` at that point — the loop's final result is that output further
transformed only by the rules after it (everything earlier is discarded),
and later static-string rules may still substitute within it. -/
theorem C3_last_derivation :
    ∀ (t : List Char) (k : Nat) (hk : k < TRANSLATION_PATTERNS.length)
      (pat : List RTok) (f : List Char → List Char) (a b : Nat)
      (cap : Option (List Char)),
      TRANSLATION_PATTERNS[k] = TRule.derive pat f →
      reSearch pat t = some (a, b, cap) →
      noLaterDeriveFires t k = true →
      translateLoop t =
        (TRANSLATION_PATTERNS.drop (k + 1)).foldl (applyRule t) (f (cap.getD [])) := by
  intro t k hk pat f a b cap hrule hsearch _
  unfold translateLoop
  conv_lhs => rw [← List.take_append_drop (k + 1) TRANSLATION_PATTERNS]
  rw [List.foldl_append]
  congr 1
  rw [List.take_succ, List.foldl_append]
  rw [List.getElem?_eq_getElem hk, hrule]
  simp only [Option.toList_some, List.foldl_cons, List.foldl_nil]
  simp only [applyRule, hsearch]

set_option maxRecDepth 16000 in
set_option maxHeartbeats 2000000 in
/-- Witness for the amended C3 at a concrete input. -/
theorem C3_last_derivation_witness :
    translateLoop mixedKo =
      (TRANSLATION_PATTERNS.drop 5).foldl (applyRule mixedKo)
        (studyF (("분류모델").toList)) :=
  C3_last_derivation mixedKo 4 (by decide) pat5 studyF 0 22
    (some (("분류모델").toList)) rfl (by decide) (by decide)

/-- Claim C4: after the rule loop, the keyword fallback is entered iff
`result` is unchanged or shorter than 0.3 of the input; the nine keyword
groups are tested in their fixed priority order, each contributing at most
one label (so the label list is a sublist of the ordered pool), and when a
group fired the output is the `We will discuss` sentence built from the
comma-joined labels and the first 50 characters of the input. -/
theorem C4_keyword_fallback :
    ∀ t : List Char,
      (conceptsOf t).Sublist conceptLabels ∧
      ((translateLoop t = t ∨ 10 * (translateLoop t).length < 3 * t.length) →
        conceptsOf t ≠ [] →
        translate_korean_text t =
          ("We will discuss ").toList ++
            List.intercalate ((", ").toList) (conceptsOf t) ++
            (" in this lecture. ").toList ++ t.take 50 ++ ("...").toList) ∧
      (¬(translateLoop t = t ∨ 10 * (translateLoop t).length < 3 * t.length) →
        translate_korean_text t = translateLoop t) := by
  intro t
  refine ⟨conceptsOf_sublist t, ?_, ?_⟩
  · intro hcond hne
    simp only [translate_korean_text]
    rw [if_pos ⟨hcond, hne⟩]
  · intro hcond
    simp only [translate_korean_text]
    rw [if_neg (fun hc => hcond hc.1)]
    rw [if_pos (fun he => hcond (Or.inl he))]

set_option maxRecDepth 16000 in
set_option maxHeartbeats 1000000 in
/-- Witness for C4 at a concrete input. -/
theorem C4_keyword_fallback_witness :
    (conceptsOf (("분석").toList)).Sublist conceptLabels ∧
    translate_korean_text (("분석").toList) =
      ("We will discuss ").toList ++
        List.intercalate ((", ").toList) (conceptsOf (("분석").toList)) ++
        (" in this lecture. ").toList ++ (("분석").toList).take 50 ++ ("...").toList :=
  ⟨(C4_keyword_fallback (("분석").toList)).1,
   (C4_keyword_fallback (("분석").toList)).2.1 (Or.inl (by decide)) (by decide)⟩

set_option maxRecDepth 16000 in
set_option maxHeartbeats 2000000 in
/-- Claim C5: when no rule changes the text and no keyword group fires,
`translate_korean_text` returns the `[Translation: ...]` placeholder built
from the first 80 characters; in particular on `오늘 날씨가 좋습니다`. -/
theorem C5_untranslated_placeholder :
    (∀ t : List Char, translateLoop t = t → conceptsOf t = [] →
      translate_korean_text t =
        ("[Translation: ").toList ++ t.take 80 ++ ("...]").toList) ∧
    translate_korean_text weatherKo =
      ("[Translation: 오늘 날씨가 좋습니다...]").toList := by
  constructor
  · intro t h1 h2
    simp only [translate_korean_text]
    rw [if_neg (fun hc => hc.2 h2)]
    rw [if_neg (fun hne => hne h1)]
  · decide

set_option maxRecDepth 16000 in
set_option maxHeartbeats 1000000 in
/-- Witness for C5 at a concrete input. -/
theorem C5_untranslated_placeholder_witness :
    translate_korean_text weatherKo =
      ("[Translation: ").toList ++ weatherKo.take 80 ++ ("...]").toList :=
  C5_untranslated_placeholder.1 weatherKo (by decide) (by decide)

set_option maxRecDepth 16000 in
set_option maxHeartbeats 2000000 in
/-- Claim C6: on the self-introduction input the greeting pattern's capture
group extracts `민수` and the derivation function substitutes it into the
English template, so the output begins with (here: equals) the greeting. -/
theorem C6_greeting_capture :
    translate_korean_text greetKo =
      ("Hello, I'm 민수, and I'll be teaching this course.").toList ∧
    ∃ rest, translate_korean_text greetKo =
      ("Hello, I'm 민수, and I'll be teaching this course.").toList ++ rest := by
  have h : translate_korean_text greetKo =
      ("Hello, I'm 민수, and I'll be teaching this course.").toList := by decide
  exact ⟨h, [], by rw [h, List.append_nil]⟩

/-- Claim C7: `translate_korean_text` is a pure total function of its input:
it always returns a string, and equal inputs give equal outputs. -/
theorem C7_deterministic :
    ∀ s t : List Char, s = t →
      translate_korean_text s = translate_korean_text t ∧
      ∃ r : List Char, translate_korean_text s = r := by
  intro s t h
  exact ⟨by rw [h], translate_korean_text s, rfl⟩

/-- Witness for C7 at a concrete input. -/
theorem C7_deterministic_witness :
    translate_korean_text [] = translate_korean_text [] ∧
    ∃ r : List Char, translate_korean_text [] = r :=
  C7_deterministic [] [] rfl
